import Mathlib

/-!
Verification of the relation reconciliation engine in
`worker/caasoperator/relation/relations.go`.

The Go source is shallowly embedded: Go maps `map[string]int64` become
association lists observed through `lookupVersion`; a Go function returning
`(hook.Info, error)` where the only error is the sentinel
`resolver.ErrNoOperation` becomes a function into `Option Info`
(`none` = `ErrNoOperation`); stateful methods on the `relations` struct
become explicit state passing over the `relationers` map.
-/

namespace JujuRelation

/-- The `params.Life` lifecycle value (a string in Go: "alive", "dying",
"dead"; the Go zero value is the empty string, embedded as `blank`). -/
inductive Life where
  | alive
  | dying
  | dead
  | blank
deriving DecidableEq, Repr

/-- Relation hook kinds from `gopkg.in/juju/charm.v6-unstable/hooks`, plus
one representative non-relation kind (`install`) so that the
`Kind.IsRelation` guard in `relations.go` is not vacuous. -/
inductive HookKind where
  | RelationJoined
  | RelationChanged
  | RelationDeparted
  | RelationBroken
  | install
deriving DecidableEq, Repr

/-- Modelled from the spec: "fails if `info.Kind` is not a relation hook" —
the four relation kinds are relation hooks, `install` is not (the defining
Go code, `hooks.Kind.IsRelation`, is outside the given sources). -/
def HookKind.isRelation : HookKind → Bool
  | .RelationJoined => true
  | .RelationChanged => true
  | .RelationDeparted => true
  | .RelationBroken => true
  | .install => false

/-- `hook.Info` as used by `relations.go`: kind, relation id, remote unit
name ("" for `RelationBroken`) and change version (0 where unset, matching
the Go zero values). -/
structure Info where
  kind : HookKind
  relationId : Int
  remoteUnit : String
  changeVersion : Int
deriving DecidableEq, Repr

/-- A Go `map[string]int64` of relation members, embedded as an association
list; all observations go through `lookupVersion` / `memberKeys`, so
duplicate keys behave as the first binding throughout. -/
abbrev Members := List (String × Int)

/-- Go map read `m[u]` returning the value if present. -/
def lookupVersion (m : Members) (u : String) : Option Int :=
  (m.find? fun p => p.1 == u).map Prod.snd

/-- Go map read `m[u]` with the zero value 0 for a missing key (as in
`remote.Members[unitName]` in the `ChangedPending` branch). -/
def lookupOrZero (m : Members) (u : String) : Int :=
  (lookupVersion m u).getD 0

/-- The key set of a member map. -/
def memberKeys (m : Members) : List String :=
  m.map Prod.fst

/-- Go map delete `delete(m, u)`. -/
def removeMem (m : Members) (u : String) : Members :=
  m.filter fun p => !(p.1 == u)

/-- Go map assignment `m[u] = v`. -/
def setMem (m : Members) (u : String) (v : Int) : Members :=
  (u, v) :: removeMem m u

/-- Byte/codepoint-wise lexicographic comparison of char lists, matching
Go's `<` on strings. -/
def strLtAux : List Char → List Char → Bool
  | _, [] => false
  | [], _ :: _ => true
  | a :: as, b :: bs =>
    if a.toNat < b.toNat then true
    else if b.toNat < a.toNat then false
    else strLtAux as bs

/-- Lexicographic order on strings, as used by Go's `sort.Strings` inside
`set.Strings.SortedValues`. -/
def strLt (a b : String) : Bool := strLtAux a.data b.data

/-- Insert a name into an ascending list (insertion-sort step). -/
def insertName (u : String) : List String → List String
  | [] => [u]
  | v :: vs => if strLt v u then v :: insertName u vs else u :: v :: vs

/-- Ascending sort of names; embeds `set.Strings.SortedValues`. -/
def sortNames (l : List String) : List String := l.foldr insertName []

/-- The sorted union of local and remote member names built at the top of
`nextRelationHook` (`set.NewStrings`; add all local then all remote names;
`SortedValues`). -/
def sortedUnitNames (lm rm : Members) : List String :=
  sortNames ((memberKeys lm ++ memberKeys rm).dedup)

/-- `remotestate.RelationSnapshot`: relation life plus remote members. -/
structure RelationSnapshot where
  life : Life
  members : Members
deriving DecidableEq, Repr

/-- The empty `remotestate.RelationSnapshot{}` Go zero value the caller
substitutes for a Dying relation. -/
def RelationSnapshot.zero : RelationSnapshot :=
  { life := .blank, members := [] }

/-- The durable local relation `State` as read by `relations.go`
(`local.RelationId`, `local.Members`, `local.ChangedPending`); the defining
Go file is outside the given sources, the fields are those the algorithm
reads, per the spec's Local Relation State record. -/
structure State where
  relationId : Int
  members : Members
  changedPending : String
deriving DecidableEq, Repr

/-- One unit-scan loop of `nextRelationHook`: walk the sorted names and
return the first unit for which the per-unit test produces a version. -/
def scanUnits (f : String → Option Int) : List String → Option (String × Int)
  | [] => none
  | u :: us =>
    match f u with
    | some v => some (u, v)
    | none => scanUnits f us

/-- Per-unit test of the departure loop: the unit is in local members but
no longer in remote members; yields the local change version. -/
def departOutcome (lm rm : Members) (u : String) : Option Int :=
  match lookupVersion lm u with
  | none => none
  | some v => if (lookupVersion rm u).isSome then none else some v

/-- Per-unit test of the join loop: the unit is in remote members but not
locally known; yields the remote change version. -/
def joinOutcome (lm rm : Members) (u : String) : Option Int :=
  match lookupVersion rm u with
  | none => none
  | some v => if (lookupVersion lm u).isSome then none else some v

/-- Per-unit test of the change loop: the unit is in both maps and the
remote version differs (`!=`, not `>`) from the local one; yields the
remote change version. -/
def changeOutcome (lm rm : Members) (u : String) : Option Int :=
  match lookupVersion rm u with
  | none => none
  | some rv =>
    match lookupVersion lm u with
    | none => none
    | some lv => if rv ≠ lv then some rv else none

/-- `nextRelationHook` from `relations.go` (lines 203-301): pending-change
replay, then over the sorted unit names departures, then `RelationBroken`
if `remoteBroken`, then joins, then changes; `none` embeds the
`resolver.ErrNoOperation` return. -/
def nextRelationHook (localState : State) (remote : RelationSnapshot)
    (remoteBroken : Bool) : Option Info :=
  if localState.changedPending ≠ "" then
    some { kind := .RelationChanged
           relationId := localState.relationId
           remoteUnit := localState.changedPending
           changeVersion := lookupOrZero remote.members localState.changedPending }
  else
    let sorted := sortedUnitNames localState.members remote.members
    match scanUnits (departOutcome localState.members remote.members) sorted with
    | some (u, v) =>
      some { kind := .RelationDeparted
             relationId := localState.relationId
             remoteUnit := u
             changeVersion := v }
    | none =>
      if remoteBroken then
        some { kind := .RelationBroken
               relationId := localState.relationId
               remoteUnit := ""
               changeVersion := 0 }
      else
        match scanUnits (joinOutcome localState.members remote.members) sorted with
        | some (u, v) =>
          some { kind := .RelationJoined
                 relationId := localState.relationId
                 remoteUnit := u
                 changeVersion := v }
        | none =>
          match scanUnits (changeOutcome localState.members remote.members) sorted with
          | some (u, v) =>
            some { kind := .RelationChanged
                   relationId := localState.relationId
                   remoteUnit := u
                   changeVersion := v }
          | none => none

/-- Spec wording, step 3: the unit "is present in `local.Members` but
absent from `remote.Members`". -/
def departTest (lm rm : Members) (u : String) : Bool :=
  (lookupVersion lm u).isSome && !(lookupVersion rm u).isSome

/-- Spec wording, step 5: the unit "is present in `remote.Members` but
absent from `local.Members`". -/
def joinTest (lm rm : Members) (u : String) : Bool :=
  (lookupVersion rm u).isSome && !(lookupVersion lm u).isSome

/-- Spec wording, step 6: the unit "is present in both and
`remote.Members[unit] != local.Members[unit]`". -/
def changeTest (lm rm : Members) (u : String) : Bool :=
  (lookupVersion lm u).isSome && ((lookupVersion rm u).isSome &&
    decide (lookupVersion rm u ≠ lookupVersion lm u))

/-- The Reconciliation Algorithm as the spec words it for an empty
`ChangedPending` (claim C2's precedence list): over the lexicographically
sorted union of names, (1) `RelationDeparted` for the first unit in local
but not remote, with the local version; (2) `RelationBroken` if
`remoteBroken`; (3) `RelationJoined` for the first unit in remote but not
local, with the remote version; (4) `RelationChanged` for the first unit in
both whose versions differ, with the remote version; (5) no operation. -/
def specNextRelationHook (localState : State) (remote : RelationSnapshot)
    (remoteBroken : Bool) : Option Info :=
  let sorted := sortedUnitNames localState.members remote.members
  match sorted.find? (departTest localState.members remote.members) with
  | some u =>
    some { kind := .RelationDeparted
           relationId := localState.relationId
           remoteUnit := u
           changeVersion := lookupOrZero localState.members u }
  | none =>
    if remoteBroken then
      some { kind := .RelationBroken
             relationId := localState.relationId
             remoteUnit := ""
             changeVersion := 0 }
    else
      match sorted.find? (joinTest localState.members remote.members) with
      | some u =>
        some { kind := .RelationJoined
               relationId := localState.relationId
               remoteUnit := u
               changeVersion := lookupOrZero remote.members u }
      | none =>
        match sorted.find? (changeTest localState.members remote.members) with
        | some u =>
          some { kind := .RelationChanged
                 relationId := localState.relationId
                 remoteUnit := u
                 changeVersion := lookupOrZero remote.members u }
        | none => none

/-- Modelled from the spec: the commit effects table (§4.3) applied by the
Relationer's `CommitHook` to the durable local state (the defining Go code
is outside the given sources): `RelationJoined` adds the member,
`RelationChanged` updates it and clears a matching `ChangedPending`,
`RelationDeparted` removes it, `RelationBroken` clears all members. -/
def commitHook (s : State) (h : Info) : State :=
  match h.kind with
  | .RelationJoined =>
    { s with members := setMem s.members h.remoteUnit h.changeVersion }
  | .RelationChanged =>
    { s with
      members := setMem s.members h.remoteUnit h.changeVersion
      changedPending := if s.changedPending = h.remoteUnit then "" else s.changedPending }
  | .RelationDeparted =>
    { s with members := removeMem s.members h.remoteUnit }
  | .RelationBroken =>
    { s with members := [] }
  | .install => s

/-- Iterating `nextRelationHook` against a fixed remote snapshot and
`remoteBroken` flag, applying each returned hook's commit effect between
calls: `true` iff the no-operation result is returned within `fuel`
calls. -/
def reachesNoOp (remote : RelationSnapshot) (remoteBroken : Bool) :
    State → Nat → Bool
  | _, 0 => false
  | s, fuel + 1 =>
    match nextRelationHook s remote remoteBroken with
    | none => true
    | some h => reachesNoOp remote remoteBroken (commitHook s h) fuel

/-- A unit whose local and remote versions (or presence) disagree. -/
def diffTest (lm rm : Members) (u : String) : Bool :=
  decide (lookupVersion lm u ≠ lookupVersion rm u)

/-- The union of local and remote member names together with the
`ChangedPending` unit (if set), without duplicates. -/
def allUnitNamesWithPending (s : State) (remote : RelationSnapshot) : List String :=
  ((if s.changedPending = "" then [] else [s.changedPending]) ++
    memberKeys s.members ++ memberKeys remote.members).dedup

/-- Go error values distinguished by `relations.go` (by
`params.IsCode...` classification or by identity with the resolver
sentinels), plus a catch-all. -/
inductive GoErr where
  | notRelationHook
  | unknownRelation (id : Int)
  | notFound
  | unauthorized
  | cannotEnterScope
  | cannotEnterScopeYet
  | loopAborted
  | watcherClosed
  | generic (msg : String)
deriving DecidableEq, Repr

/-- `params.IsCodeNotFoundOrCodeUnauthorized`. -/
def GoErr.isNotFoundOrUnauthorized : GoErr → Bool
  | .notFound => true
  | .unauthorized => true
  | _ => false

/-- `params.IsCodeCannotEnterScope`. -/
def GoErr.isCannotEnterScope : GoErr → Bool
  | .cannotEnterScope => true
  | _ => false

/-- `params.IsCodeCannotEnterScopeYet`. -/
def GoErr.isCannotEnterScopeYet : GoErr → Bool
  | .cannotEnterScopeYet => true
  | _ => false

/-- Modelled from the spec: the per-relation `Relationer` as observed by
`relations.go` (its defining file is outside the given sources): the
implicit flag, the dying flag set by `SetDying`, and the endpoint name
returned by `Name`. -/
structure Relationer where
  isImplicit : Bool
  dying : Bool
  endpointName : String
deriving DecidableEq, Repr

/-- The `relationers map[int]*Relationer` field, as an association list. -/
abbrev RelSet := List (Int × Relationer)

/-- Go map read `r.relationers[id]`. -/
def lookupRel (rs : RelSet) (id : Int) : Option Relationer :=
  (rs.find? fun p => p.1 == id).map Prod.snd

/-- Go map delete `delete(r.relationers, id)`. -/
def removeRel (rs : RelSet) (id : Int) : RelSet :=
  rs.filter fun p => !(p.1 == id)

/-- Go map assignment `r.relationers[id] = relationer`. -/
def setRel (rs : RelSet) (id : Int) (r : Relationer) : RelSet :=
  (id, r) :: removeRel rs id

/-- `relations.setDying` (lines 462-474): unknown ids are ignored;
`relationer.SetDying()` may fail (outcome supplied as `setDyingErr`); an
implicit relationer is then deleted from the set, a non-implicit one is
kept, marked dying. -/
def setDying (rs : RelSet) (id : Int) (setDyingErr : Option GoErr) :
    Except GoErr RelSet :=
  match lookupRel rs id with
  | none => .ok rs
  | some r =>
    match setDyingErr with
    | some e => .error e
    | none =>
      if r.isImplicit then .ok (removeRel rs id)
      else .ok (setRel rs id { r with dying := true })

/-- The snapshot replacement performed by `relations.NextHook`
(lines 178-184) before calling `nextRelationHook`: if the unit or the
relation is Dying, the snapshot is replaced by the zero snapshot and
`remoteBroken` is set. -/
def effectiveSnapshot (unitLife : Life) (snap : RelationSnapshot) :
    RelationSnapshot × Bool :=
  if unitLife = .dying ∨ snap.life = .dying then (RelationSnapshot.zero, true)
  else (snap, false)

/-- `relations.CommitHook` (lines 325-337): reject non-relation kinds,
look the relationer up (unknown-relation error if absent), delete it from
the set when the kind is `RelationBroken`, then run the per-Relationer
commit (outcome supplied by `inner`, modelling `relationer.CommitHook`
whose definition is outside the given sources). Returns the new set and
the error result. -/
def commitHookRS (inner : Relationer → Info → Option GoErr) (rs : RelSet)
    (info : Info) : RelSet × Option GoErr :=
  if info.kind.isRelation = false then (rs, some .notRelationHook)
  else
    match lookupRel rs info.relationId with
    | none => (rs, some (.unknownRelation info.relationId))
    | some relationer =>
      ((if info.kind = .RelationBroken then removeRel rs info.relationId else rs),
       inner relationer info)

/-- `relations.Name` (lines 304-310). -/
def nameOf (rs : RelSet) (id : Int) : Except GoErr String :=
  match lookupRel rs id with
  | none => .error (.unknownRelation id)
  | some r => .ok r.endpointName

/-- `relations.PrepareHook` (lines 313-322); the per-Relationer
preparation outcome is supplied by `prep`. -/
def prepareHookRS (prep : Relationer → Info → Except GoErr String)
    (rs : RelSet) (info : Info) : Except GoErr String :=
  if info.kind.isRelation = false then .error .notRelationHook
  else
    match lookupRel rs info.relationId with
    | none => .error (.unknownRelation info.relationId)
    | some relationer => prep relationer info

/-- One event observed by the `select` loop of `relations.add`
(lines 433-456): the abort channel fires, the unit watcher channel closes,
or a watch trigger arrives whose subsequent `relationer.Join()` attempt
produces the given outcome (`none` = scope entered). The interleaving of
the two channels is captured by the order of the event list. -/
inductive AddEvent where
  | abort
  | closed
  | trigger (joinErr : Option GoErr)
deriving DecidableEq, Repr

/-- The `relations.add` wait/retry loop (lines 433-456), consuming events:
abort returns the distinguished `resolver.ErrLoopAborted`; a closed
watcher channel is a fatal error; a watch trigger attempts `Join()` —
transient "cannot enter scope yet" rejections wait for the next signal,
success registers the relationer and returns, any other error is fatal.
Returns `none` when the events are exhausted with the loop still waiting,
otherwise the resulting relationer set, the error outcome (`none` = ok)
and the number of `Join()` attempts made. -/
def addLoop (id : Int) (relationer : Relationer) (rs : RelSet) :
    List AddEvent → Nat → Option (RelSet × Option GoErr × Nat)
  | [], _ => none
  | .abort :: _, n => some (rs, some .loopAborted, n)
  | .closed :: _, n => some (rs, some .watcherClosed, n)
  | .trigger joinErr :: rest, n =>
    match joinErr with
    | none => some (setRel rs id relationer, none, n + 1)
    | some e =>
      if e.isCannotEnterScopeYet then addLoop id relationer rs rest (n + 1)
      else some (rs, some e, n + 1)

/-- Outcomes of the external calls made by `relations.update` for each
relation id (`none` = success where only failure matters): `RelationById`,
`ReadCharmDir`, `rel.Endpoint()`, `ep.ImplementedBy`, `ReadStateDir`, the
whole `relations.add` call (returning the registered relationer on
success), `dir.Remove()`, and `relationer.SetDying()`. -/
structure UpdateEnv where
  relationById : Int → Option GoErr
  readCharmDir : Option GoErr
  endpointErr : Int → Option GoErr
  implementedBy : Int → Bool
  readStateDir : Int → Option GoErr
  addOutcome : Int → Except GoErr Relationer
  dirRemove : Int → Option GoErr
  setDyingErr : Int → Option GoErr

/-- The body of the `relations.update` loop (lines 349-402) for a single
relation id. The second component records whether `dir.Remove()` was
invoked. Known relationers only get `setDying` on a Dying life; unknown
non-Alive relations are skipped; not-found/unauthorized `RelationById`
errors are skipped; an unimplemented endpoint is skipped; on an `add`
failure the state directory is removed, a non-"cannot enter scope" add
error is returned, otherwise a failed removal is returned and a successful
removal skips the relation. -/
def updateOne (env : UpdateEnv) (rs : RelSet) (id : Int)
    (snap : RelationSnapshot) : Except GoErr RelSet × Bool :=
  match lookupRel rs id with
  | some _ =>
    (if snap.life = .dying then setDying rs id (env.setDyingErr id) else .ok rs,
     false)
  | none =>
    if snap.life ≠ .alive then (.ok rs, false)
    else
      match env.relationById id with
      | some e =>
        (if e.isNotFoundOrUnauthorized then .ok rs else .error e, false)
      | none =>
        match env.readCharmDir with
        | some e => (.error e, false)
        | none =>
          match env.endpointErr id with
          | some e => (.error e, false)
          | none =>
            if env.implementedBy id = false then (.ok rs, false)
            else
              match env.readStateDir id with
              | some e => (.error e, false)
              | none =>
                match env.addOutcome id with
                | .ok relationer => (.ok (setRel rs id relationer), false)
                | .error addErr =>
                  (if addErr.isCannotEnterScope = false then .error addErr
                   else
                     match env.dirRemove id with
                     | some re => .error re
                     | none => .ok rs,
                   true)

/-- `relations.update` (lines 348-404) over the remote relations in a given
iteration order; the first error aborts the whole update. -/
def update (env : UpdateEnv) : RelSet → List (Int × RelationSnapshot) →
    Except GoErr RelSet
  | rs, [] => .ok rs
  | rs, (id, snap) :: rest =>
    match (updateOne env rs id snap).1 with
    | .error e => .error e
    | .ok rs' => update env rs' rest

end JujuRelation

namespace JujuRelation

theorem scanUnits_depart_eq (lm rm : Members) :
    ∀ l : List String,
      scanUnits (departOutcome lm rm) l =
        (l.find? (departTest lm rm)).map fun u => (u, lookupOrZero lm u)
  | [] => rfl
  | u :: us => by
    cases hl : lookupVersion lm u with
    | none =>
      simp [scanUnits, departOutcome, departTest, List.find?_cons, hl,
        scanUnits_depart_eq lm rm us]
    | some v =>
      cases hr : (lookupVersion rm u).isSome with
      | true =>
        simp [scanUnits, departOutcome, departTest, List.find?_cons, hl, hr,
          scanUnits_depart_eq lm rm us]
      | false =>
        simp [scanUnits, departOutcome, departTest, List.find?_cons, hl, hr,
          lookupOrZero]

theorem scanUnits_join_eq (lm rm : Members) :
    ∀ l : List String,
      scanUnits (joinOutcome lm rm) l =
        (l.find? (joinTest lm rm)).map fun u => (u, lookupOrZero rm u)
  | [] => rfl
  | u :: us => by
    cases hr : lookupVersion rm u with
    | none =>
      simp [scanUnits, joinOutcome, joinTest, List.find?_cons, hr,
        scanUnits_join_eq lm rm us]
    | some v =>
      cases hl : (lookupVersion lm u).isSome with
      | true =>
        simp [scanUnits, joinOutcome, joinTest, List.find?_cons, hl, hr,
          scanUnits_join_eq lm rm us]
      | false =>
        simp [scanUnits, joinOutcome, joinTest, List.find?_cons, hl, hr,
          lookupOrZero]

theorem scanUnits_change_eq (lm rm : Members) :
    ∀ l : List String,
      scanUnits (changeOutcome lm rm) l =
        (l.find? (changeTest lm rm)).map fun u => (u, lookupOrZero rm u)
  | [] => rfl
  | u :: us => by
    cases hr : lookupVersion rm u with
    | none =>
      simp [scanUnits, changeOutcome, changeTest, List.find?_cons, hr,
        scanUnits_change_eq lm rm us]
    | some rv =>
      cases hl : lookupVersion lm u with
      | none =>
        simp [scanUnits, changeOutcome, changeTest, List.find?_cons, hl, hr,
          scanUnits_change_eq lm rm us]
      | some lv =>
        by_cases hne : rv = lv
        · simp [scanUnits, changeOutcome, changeTest, List.find?_cons, hl, hr, hne,
            scanUnits_change_eq lm rm us]
        · simp [scanUnits, changeOutcome, changeTest, List.find?_cons, hl, hr, hne,
            lookupOrZero]

/-- Claim C2: for every local state with empty `ChangedPending`, every
remote snapshot, and every `remoteBroken` flag, `nextRelationHook`
evaluates exactly the spec's precedence, first match wins, scanning the
lexicographically sorted union of local and remote member names:
departures (local version), then `RelationBroken` if `remoteBroken`, then
joins (remote version), then changes (remote version), else no operation —
stated as equality with `specNextRelationHook`, the direct transcription of
that precedence list. -/
theorem c2_precedence_refinement (localState : State) (remote : RelationSnapshot)
    (remoteBroken : Bool) (h : localState.changedPending = "") :
    nextRelationHook localState remote remoteBroken =
      specNextRelationHook localState remote remoteBroken := by
  unfold nextRelationHook specNextRelationHook
  simp only [h, ne_eq, not_true_eq_false, if_false, scanUnits_depart_eq,
    scanUnits_join_eq, scanUnits_change_eq]
  cases (sortedUnitNames localState.members remote.members).find?
      (departTest localState.members remote.members) with
  | some u => rfl
  | none =>
    cases remoteBroken with
    | true => rfl
    | false =>
      cases (sortedUnitNames localState.members remote.members).find?
          (joinTest localState.members remote.members) with
      | some u => rfl
      | none =>
        cases (sortedUnitNames localState.members remote.members).find?
            (changeTest localState.members remote.members) with
        | some u => rfl
        | none => rfl

/-- Concrete instance of C2: with `local.Members = {a: 1}` and
`remote.Members = {b: 1, z: 1}`, the code and the spec precedence agree,
and both emit `RelationDeparted(a, 1)` (departures precede the sorted-first
join of "b"). -/
theorem c2_precedence_refinement_witness :
    (({ relationId := 1, members := [("a", 1)], changedPending := "" } : State).changedPending = "") ∧
    nextRelationHook
        { relationId := 1, members := [("a", 1)], changedPending := "" }
        { life := .alive, members := [("z", 1), ("b", 1)] } false =
      specNextRelationHook
        { relationId := 1, members := [("a", 1)], changedPending := "" }
        { life := .alive, members := [("z", 1), ("b", 1)] } false ∧
    specNextRelationHook
        { relationId := 1, members := [("a", 1)], changedPending := "" }
        { life := .alive, members := [("z", 1), ("b", 1)] } false =
      some { kind := .RelationDeparted, relationId := 1, remoteUnit := "a", changeVersion := 1 } :=
  ⟨rfl,
   c2_precedence_refinement
     { relationId := 1, members := [("a", 1)], changedPending := "" }
     { life := .alive, members := [("z", 1), ("b", 1)] } false rfl,
   by decide⟩

/-- Claim C1: for every local state with a non-empty `ChangedPending` unit
name and every remote snapshot, `nextRelationHook` returns a
`RelationChanged` hook for exactly that unit, with `ChangeVersion` equal to
`remote.Members[unit]` (zero if absent), regardless of any membership or
lifecycle discrepancy and regardless of `remoteBroken`. -/
theorem c1_pending_replay (localState : State) (remote : RelationSnapshot)
    (remoteBroken : Bool) (h : localState.changedPending ≠ "") :
    nextRelationHook localState remote remoteBroken =
      some { kind := .RelationChanged
             relationId := localState.relationId
             remoteUnit := localState.changedPending
             changeVersion := lookupOrZero remote.members localState.changedPending } := by
  simp [nextRelationHook, h]

/-- Concrete instance of C1: pending unit "u" absent from the remote
snapshot, with a membership discrepancy present and `remoteBroken` set. -/
theorem c1_pending_replay_witness :
    (({ relationId := 7, members := [("a", 1)], changedPending := "u" } : State).changedPending ≠ "") ∧
    nextRelationHook
        { relationId := 7, members := [("a", 1)], changedPending := "u" }
        { life := .alive, members := [("b", 3)] } true =
      some { kind := .RelationChanged, relationId := 7, remoteUnit := "u", changeVersion := 0 } :=
  ⟨by decide,
   c1_pending_replay
     { relationId := 7, members := [("a", 1)], changedPending := "u" }
     { life := .alive, members := [("b", 3)] } true (by decide)⟩

theorem mem_insertName {w u : String} :
    ∀ {l : List String}, w ∈ insertName u l ↔ w = u ∨ w ∈ l
  | [] => by simp [insertName]
  | v :: vs => by
    cases hv : strLt v u with
    | true =>
      simp [insertName, hv, List.mem_cons, mem_insertName (l := vs)]
      tauto
    | false =>
      simp [insertName, hv, List.mem_cons]

theorem mem_sortNames {w : String} :
    ∀ {l : List String}, w ∈ sortNames l ↔ w ∈ l
  | [] => by simp [sortNames]
  | v :: vs => by
    have ih := mem_sortNames (w := w) (l := vs)
    simp only [sortNames, List.foldr_cons, mem_insertName, List.mem_cons]
    rw [show (List.foldr insertName [] vs) = sortNames vs from rfl] at *
    tauto

theorem mem_sortedUnitNames {u : String} {lm rm : Members} :
    u ∈ sortedUnitNames lm rm ↔ u ∈ memberKeys lm ∨ u ∈ memberKeys rm := by
  simp [sortedUnitNames, mem_sortNames, List.mem_dedup, List.mem_append]

theorem lookupVersion_isSome {u : String} :
    ∀ {m : Members}, (lookupVersion m u).isSome ↔ u ∈ memberKeys m
  | [] => by simp [lookupVersion, memberKeys]
  | (a, b) :: t => by
    by_cases h : a = u
    · simp [lookupVersion, memberKeys, List.find?_cons, h]
    · have ih := lookupVersion_isSome (u := u) (m := t)
      simp only [lookupVersion, memberKeys, List.find?_cons, List.map_cons,
        List.mem_cons] at ih ⊢
      rw [show (a == u) = false by simp [h]]
      simp only [ih]
      constructor
      · exact Or.inr
      · rintro (rfl | hm)
        · exact absurd rfl h
        · exact hm

theorem lookupVersion_eq_none_of_not_mem {u : String} {m : Members}
    (h : u ∉ memberKeys m) : lookupVersion m u = none := by
  have := (not_congr lookupVersion_isSome).mpr h
  simpa [Option.not_isSome_iff_eq_none] using this

/-- Claim C3: settings-change detection uses inequality, not ordering, of
change versions — with empty `ChangedPending`, matching local/remote key
sets (no departures or joins pending) and `remoteBroken` false, whenever
some unit present in both maps has `remote.Members[u] != local.Members[u]`
(the first such unit in sorted order), `nextRelationHook` emits
`RelationChanged` for it with the remote (possibly numerically smaller)
version. -/
theorem c3_changed_inequality (localState : State) (remote : RelationSnapshot) (u : String)
    (hp : localState.changedPending = "")
    (hkeys : ∀ w ∈ sortedUnitNames localState.members remote.members,
        (lookupVersion localState.members w).isSome = (lookupVersion remote.members w).isSome)
    (hfind : (sortedUnitNames localState.members remote.members).find?
        (changeTest localState.members remote.members) = some u) :
    nextRelationHook localState remote false =
      some { kind := .RelationChanged
             relationId := localState.relationId
             remoteUnit := u
             changeVersion := lookupOrZero remote.members u } := by
  have hdep : (sortedUnitNames localState.members remote.members).find?
      (departTest localState.members remote.members) = none := by
    rw [List.find?_eq_none]
    intro w hw
    simp only [departTest, hkeys w hw, Bool.and_not_self]
    exact Bool.false_ne_true
  have hjoin : (sortedUnitNames localState.members remote.members).find?
      (joinTest localState.members remote.members) = none := by
    rw [List.find?_eq_none]
    intro w hw
    simp only [joinTest, ← hkeys w hw, Bool.and_not_self]
    exact Bool.false_ne_true
  rw [c2_precedence_refinement _ _ _ hp]
  unfold specNextRelationHook
  simp only [hdep, hjoin, hfind, Bool.false_eq_true, if_false]

theorem lookupVersion_cons_of_ne {a w : String} {b : Int} {t : Members}
    (h : (a == w) = false) : lookupVersion ((a, b) :: t) w = lookupVersion t w := by
  simp [lookupVersion, List.find?_cons, h]

theorem lookupVersion_cons_self {a w : String} {b : Int} {t : Members}
    (h : (a == w) = true) : lookupVersion ((a, b) :: t) w = some b := by
  simp [lookupVersion, List.find?_cons, h]

theorem lookup_removeMem (u w : String) :
    ∀ (m : Members), lookupVersion (removeMem m u) w =
      if w = u then none else lookupVersion m w
  | [] => by simp [removeMem, lookupVersion]
  | (a, b) :: t => by
    have ih := lookup_removeMem u w t
    by_cases hau : a = u
    · rw [show removeMem ((a, b) :: t) u = removeMem t u by
        simp [removeMem, List.filter_cons, hau]]
      rw [ih]
      by_cases hwu : w = u
      · rw [if_pos hwu, if_pos hwu]
      · rw [if_neg hwu, if_neg hwu,
          lookupVersion_cons_of_ne (by
            simp only [beq_eq_false_iff_ne, ne_eq]
            intro hEq
            exact hwu (hEq ▸ hau))]
    · rw [show removeMem ((a, b) :: t) u = (a, b) :: removeMem t u by
        simp [removeMem, List.filter_cons, hau]]
      by_cases haw : a = w
      · rw [lookupVersion_cons_self (by simp [haw]),
          if_neg (fun hwu => hau (haw.trans hwu)),
          lookupVersion_cons_self (by simp [haw])]
      · rw [lookupVersion_cons_of_ne (by simp [haw]), ih]
        by_cases hwu : w = u
        · rw [if_pos hwu, if_pos hwu]
        · rw [if_neg hwu, if_neg hwu, lookupVersion_cons_of_ne (by simp [haw])]

theorem lookup_setMem (m : Members) (u : String) (v : Int) (w : String) :
    lookupVersion (setMem m u v) w = if w = u then some v else lookupVersion m w := by
  by_cases hwu : w = u
  · subst hwu
    rw [if_pos rfl]
    exact lookupVersion_cons_self (by simp)
  · rw [if_neg hwu,
      show setMem m u v = (u, v) :: removeMem m u from rfl,
      lookupVersion_cons_of_ne (by
        simp only [beq_eq_false_iff_ne, ne_eq]
        intro hEq
        exact hwu hEq.symm)]
    have := lookup_removeMem u w m
    rw [if_neg hwu] at this
    exact this

theorem scanUnits_eq_some {f : String → Option Int} :
    ∀ {l : List String} {u : String} {v : Int},
      scanUnits f l = some (u, v) → u ∈ l ∧ f u = some v := by
  intro l
  induction l with
  | nil => intro u v h; cases h
  | cons w ws ih =>
    intro u v h
    cases hf : f w with
    | some x =>
      simp only [scanUnits, hf, Option.some.injEq, Prod.mk.injEq] at h
      obtain ⟨rfl, rfl⟩ := h
      exact ⟨List.mem_cons_self _ _, hf⟩
    | none =>
      simp only [scanUnits, hf] at h
      obtain ⟨hm, hfu⟩ := ih h
      exact ⟨List.mem_cons_of_mem _ hm, hfu⟩

theorem scanUnits_eq_none_of {f : String → Option Int}
    (hf : ∀ u, f u = none) : ∀ (l : List String), scanUnits f l = none
  | [] => rfl
  | u :: us => by simp only [scanUnits, hf u, scanUnits_eq_none_of hf us]

theorem departOutcome_eq_some {lm rm : Members} {u : String} {v : Int}
    (h : departOutcome lm rm u = some v) :
    lookupVersion lm u = some v ∧ lookupVersion rm u = none := by
  unfold departOutcome at h
  cases hl : lookupVersion lm u with
  | none => rw [hl] at h; cases h
  | some v' =>
    rw [hl] at h
    cases hr : lookupVersion rm u with
    | some w => rw [hr] at h; simp at h
    | none =>
      rw [hr] at h
      simp only [Option.isSome_none, Bool.false_eq_true, if_false,
        Option.some.injEq] at h
      exact ⟨by rw [h], rfl⟩

theorem joinOutcome_eq_some {lm rm : Members} {u : String} {v : Int}
    (h : joinOutcome lm rm u = some v) :
    lookupVersion rm u = some v ∧ lookupVersion lm u = none := by
  unfold joinOutcome at h
  cases hr : lookupVersion rm u with
  | none => rw [hr] at h; cases h
  | some v' =>
    rw [hr] at h
    cases hl : lookupVersion lm u with
    | some w => rw [hl] at h; simp at h
    | none =>
      rw [hl] at h
      simp only [Option.isSome_none, Bool.false_eq_true, if_false,
        Option.some.injEq] at h
      exact ⟨by rw [h], rfl⟩

theorem changeOutcome_eq_some {lm rm : Members} {u : String} {v : Int}
    (h : changeOutcome lm rm u = some v) :
    lookupVersion rm u = some v ∧
      ∃ lv, lookupVersion lm u = some lv ∧ v ≠ lv := by
  unfold changeOutcome at h
  cases hr : lookupVersion rm u with
  | none => rw [hr] at h; cases h
  | some rv =>
    rw [hr] at h
    cases hl : lookupVersion lm u with
    | none => rw [hl] at h; cases h
    | some lv =>
      rw [hl] at h
      by_cases hne : rv = lv
      · simp [hne] at h
      · simp only [ne_eq, hne, not_false_eq_true, if_true,
          Option.some.injEq] at h
        refine ⟨by rw [h], lv, rfl, ?_⟩
        rw [← h]
        exact hne

theorem reachesNoOp_succ (remote : RelationSnapshot) (b : Bool) (s : State) (n : Nat) :
    reachesNoOp remote b s (n + 1) =
      match nextRelationHook s remote b with
      | none => true
      | some h => reachesNoOp remote b (commitHook s h) n := rfl

theorem nextRelationHook_eq_none_of_agree (s : State) (remote : RelationSnapshot)
    (hp : s.changedPending = "")
    (hall : ∀ u, lookupVersion s.members u = lookupVersion remote.members u) :
    nextRelationHook s remote false = none := by
  have hd : ∀ u, departOutcome s.members remote.members u = none := by
    intro u
    unfold departOutcome
    rw [hall u]
    cases hru : lookupVersion remote.members u <;> simp
  have hj : ∀ u, joinOutcome s.members remote.members u = none := by
    intro u
    unfold joinOutcome
    rw [hall u]
    cases hru : lookupVersion remote.members u <;> simp
  have hc : ∀ u, changeOutcome s.members remote.members u = none := by
    intro u
    unfold changeOutcome
    rw [hall u]
    cases hru : lookupVersion remote.members u <;> simp
  unfold nextRelationHook
  simp only [hp, ne_eq, not_true_eq_false, if_false, scanUnits_eq_none_of hd,
    scanUnits_eq_none_of hj, scanUnits_eq_none_of hc, Bool.false_eq_true]

/-- The single-step effect of one `nextRelationHook` call (with empty
pending and `remoteBroken = false`) followed by its commit: pending stays
empty, the emitted unit is in the sorted union, its local version now
agrees with the remote one, all other units are untouched, and it
disagreed before the commit. -/
theorem nextRelationHook_step (s : State) (remote : RelationSnapshot) (h : Info)
    (hp : s.changedPending = "")
    (hnext : nextRelationHook s remote false = some h) :
    (commitHook s h).changedPending = "" ∧
    h.remoteUnit ∈ sortedUnitNames s.members remote.members ∧
    lookupVersion (commitHook s h).members h.remoteUnit =
      lookupVersion remote.members h.remoteUnit ∧
    (∀ w, w ≠ h.remoteUnit →
      lookupVersion (commitHook s h).members w = lookupVersion s.members w) ∧
    lookupVersion s.members h.remoteUnit ≠ lookupVersion remote.members h.remoteUnit := by
  unfold nextRelationHook at hnext
  rw [if_neg (by simp [hp])] at hnext
  cases hdep : scanUnits (departOutcome s.members remote.members)
      (sortedUnitNames s.members remote.members) with
  | some uv =>
    obtain ⟨u, v⟩ := uv
    simp only [hdep, Option.some.injEq] at hnext
    subst hnext
    obtain ⟨hmem, hout⟩ := scanUnits_eq_some hdep
    obtain ⟨hl, hr⟩ := departOutcome_eq_some hout
    refine ⟨by simp [commitHook, hp], hmem, ?_, ?_, ?_⟩
    · simp only [commitHook]
      rw [lookup_removeMem, if_pos rfl, hr]
    · intro w hw
      simp only [commitHook]
      rw [lookup_removeMem, if_neg hw]
    · simp [hl, hr]
  | none =>
    cases hjoin : scanUnits (joinOutcome s.members remote.members)
        (sortedUnitNames s.members remote.members) with
    | some uv =>
      obtain ⟨u, v⟩ := uv
      simp only [hdep, hjoin, Bool.false_eq_true, if_false,
        Option.some.injEq] at hnext
      subst hnext
      obtain ⟨hmem, hout⟩ := scanUnits_eq_some hjoin
      obtain ⟨hr, hl⟩ := joinOutcome_eq_some hout
      refine ⟨by simp [commitHook, hp], hmem, ?_, ?_, ?_⟩
      · simp only [commitHook]
        rw [lookup_setMem, if_pos rfl, hr]
      · intro w hw
        simp only [commitHook]
        rw [lookup_setMem, if_neg hw]
      · simp [hl, hr]
    | none =>
      cases hchg : scanUnits (changeOutcome s.members remote.members)
          (sortedUnitNames s.members remote.members) with
      | some uv =>
        obtain ⟨u, v⟩ := uv
        simp only [hdep, hjoin, hchg, Bool.false_eq_true, if_false,
          Option.some.injEq] at hnext
        subst hnext
        obtain ⟨hmem, hout⟩ := scanUnits_eq_some hchg
        obtain ⟨hr, lv, hl, hne⟩ := changeOutcome_eq_some hout
        refine ⟨by simp [commitHook, hp], hmem, ?_, ?_, ?_⟩
        · simp only [commitHook]
          rw [lookup_setMem, if_pos rfl, hr]
        · intro w hw
          simp only [commitHook]
          rw [lookup_setMem, if_neg hw]
        · rw [hl, hr]
          intro hEq
          exact hne (Option.some.injEq .. ▸ hEq).symm
      | none =>
        simp only [hdep, hjoin, hchg, Bool.false_eq_true, if_false] at hnext
        exact Option.noConfusion hnext

theorem countP_le_of_pointwise {p q : String → Bool}
    (hmono : ∀ w, p w = true → q w = true) :
    ∀ l : List String, l.countP p ≤ l.countP q
  | [] => Nat.le_refl _
  | a :: t => by
    have ih := countP_le_of_pointwise hmono t
    rw [List.countP_cons, List.countP_cons]
    cases hpa : p a with
    | true =>
      rw [hmono a hpa]
      simp only [if_true]
      omega
    | false =>
      cases hqa : q a <;> simp <;> omega

theorem countP_lt_of_pointwise {p q : String → Bool} {u : String}
    (hq : q u = true) (hp : p u = false)
    (hmono : ∀ w, p w = true → q w = true) :
    ∀ {l : List String}, u ∈ l → l.countP p < l.countP q
  | [], hu => absurd hu (List.not_mem_nil u)
  | a :: t, hu => by
    rw [List.countP_cons, List.countP_cons]
    rcases List.mem_cons.mp hu with rfl | hut
    · have hle := countP_le_of_pointwise hmono t
      rw [hp, hq]
      simp only [Bool.false_eq_true, if_false, if_true]
      omega
    · have hlt := countP_lt_of_pointwise hq hp hmono hut
      cases hpa : p a with
      | true =>
        rw [hmono a hpa]
        simp only [if_true]
        omega
      | false =>
        cases hqa : q a <;> simp <;> omega

/-- Convergence of the iterated reconciliation with empty pending and
`remoteBroken = false`: the number of still-disagreeing units within a
fixed cover `L0` of the keys bounds the calls needed to reach
no-operation. -/
theorem converge_aux (remote : RelationSnapshot) (L0 : List String)
    (hrm : ∀ u, u ∈ memberKeys remote.members → u ∈ L0) :
    ∀ (n : Nat) (s : State), s.changedPending = "" →
      (∀ u, u ∈ memberKeys s.members → u ∈ L0) →
      L0.countP (diffTest s.members remote.members) ≤ n →
      reachesNoOp remote false s (n + 1) = true := by
  intro n
  induction n with
  | zero =>
    intro s hp hkeys hcnt
    have hzero : L0.countP (diffTest s.members remote.members) = 0 :=
      Nat.le_zero.mp hcnt
    have hall : ∀ u, lookupVersion s.members u = lookupVersion remote.members u := by
      intro u
      by_cases hu : u ∈ L0
      · have := List.countP_eq_zero.mp hzero _ hu
        simpa [diffTest] using this
      · have hns : u ∉ memberKeys s.members := fun hk => hu (hkeys u hk)
        have hnr : u ∉ memberKeys remote.members := fun hk => hu (hrm u hk)
        rw [lookupVersion_eq_none_of_not_mem hns,
          lookupVersion_eq_none_of_not_mem hnr]
    have hnone := nextRelationHook_eq_none_of_agree s remote hp hall
    simp [reachesNoOp, hnone]
  | succ n ih =>
    intro s hp hkeys hcnt
    cases hnext : nextRelationHook s remote false with
    | none => simp [reachesNoOp, hnext]
    | some h =>
      obtain ⟨hp', hmem, heq, hother, hdiff⟩ :=
        nextRelationHook_step s remote h hp hnext
      have huL0 : h.remoteUnit ∈ L0 := by
        rcases mem_sortedUnitNames.mp hmem with hk | hk
        · exact hkeys _ hk
        · exact hrm _ hk
      have hmono : ∀ w,
          diffTest (commitHook s h).members remote.members w = true →
          diffTest s.members remote.members w = true := by
        intro w hw
        by_cases hwu : w = h.remoteUnit
        · subst hwu
          rw [diffTest, decide_eq_true_iff] at hw
          exact absurd heq hw
        · rw [diffTest, decide_eq_true_iff] at hw ⊢
          rw [hother w hwu] at hw
          exact hw
      have hlt : L0.countP (diffTest (commitHook s h).members remote.members) <
          L0.countP (diffTest s.members remote.members) :=
        countP_lt_of_pointwise
          (by rw [diffTest, decide_eq_true_iff]; exact hdiff)
          (by rw [diffTest, decide_eq_false_iff_not]; intro hcontra; exact hcontra heq)
          hmono huL0
      have hkeys' : ∀ u, u ∈ memberKeys (commitHook s h).members → u ∈ L0 := by
        intro u hu
        by_cases huu : u = h.remoteUnit
        · subst huu
          exact huL0
        · have hs : (lookupVersion (commitHook s h).members u).isSome :=
            lookupVersion_isSome.mpr hu
          rw [hother u huu] at hs
          exact hkeys _ (lookupVersion_isSome.mp hs)
      have hstep : reachesNoOp remote false (commitHook s h) (n + 1) = true :=
        ih (commitHook s h) hp' hkeys' (by omega)
      rw [reachesNoOp_succ, hnext]
      exact hstep

/-- Concrete instance of C3: `local.Members = {a: 5}`,
`remote.Members = {a: 2}` yields `RelationChanged(a, 2)` although the
remote version is numerically smaller. -/
theorem c3_changed_inequality_witness :
    nextRelationHook
        { relationId := 4, members := [("a", 5)], changedPending := "" }
        { life := .alive, members := [("a", 2)] } false =
      some { kind := .RelationChanged, relationId := 4, remoteUnit := "a", changeVersion := 2 } :=
  c3_changed_inequality
    { relationId := 4, members := [("a", 5)], changedPending := "" }
    { life := .alive, members := [("a", 2)] } "a"
    rfl (by decide) (by decide)

/-- Claim C4 counterexample: the claim as stated fails at empty local
state, empty remote snapshot and `remoteBroken = true` — the union of
member names is empty, so the claimed bound is 1 call, but the first call
returns `RelationBroken` (whose commit effect leaves the state unchanged),
so the no-operation result is not reached within the bound (nor within 5
calls). -/
theorem c4_counterexample :
    reachesNoOp { life := .blank, members := [] } true
        { relationId := 0, members := [], changedPending := "" }
        ((sortedUnitNames ([] : Members) ([] : Members)).length + 1) = false ∧
    reachesNoOp { life := .blank, members := [] } true
        { relationId := 0, members := [], changedPending := "" } 5 = false := by
  exact ⟨rfl, rfl⟩

/-- Claim C4 (amended): each `nextRelationHook` call returns at most one
hook, and with `remoteBroken = false`, iterating `nextRelationHook`
against a fixed remote snapshot, applying the returned hook's commit
effect to the local state between calls, reaches the no-operation result
within at most `|union of the local and remote member names and the
ChangedPending unit (if set)| + 2` calls. (The `remoteBroken = true` case
never reaches no-operation — the program instead removes the relationer
after `RelationBroken` commits — and the pending-replay commit can add one
departure step beyond the claimed `|union| + 1` bound.) -/
theorem c4_convergence_amended (s : State) (remote : RelationSnapshot) :
    reachesNoOp remote false s
      ((allUnitNamesWithPending s remote).length + 2) = true := by
  have hrm : ∀ u, u ∈ memberKeys remote.members →
      u ∈ allUnitNamesWithPending s remote := by
    intro u hu
    simp only [allUnitNamesWithPending, List.mem_dedup, List.mem_append]
    exact Or.inr hu
  by_cases hp : s.changedPending = ""
  · have hkeys : ∀ u, u ∈ memberKeys s.members →
        u ∈ allUnitNamesWithPending s remote := by
      intro u hu
      simp only [allUnitNamesWithPending, List.mem_dedup, List.mem_append]
      exact Or.inl (Or.inr hu)
    have hcnt : (allUnitNamesWithPending s remote).countP
        (diffTest s.members remote.members) ≤
        (allUnitNamesWithPending s remote).length + 1 :=
      Nat.le_trans (List.countP_le_length _) (Nat.le_succ _)
    exact converge_aux remote _ hrm
      ((allUnitNamesWithPending s remote).length + 1) s hp hkeys hcnt
  · have hgoal : reachesNoOp remote false
        (commitHook s
          { kind := .RelationChanged
            relationId := s.relationId
            remoteUnit := s.changedPending
            changeVersion := lookupOrZero remote.members s.changedPending })
        ((allUnitNamesWithPending s remote).length + 1) = true := by
      apply converge_aux remote (allUnitNamesWithPending s remote) hrm
      · simp [commitHook]
      · intro u hu
        have hs : (lookupVersion (setMem s.members s.changedPending
            (lookupOrZero remote.members s.changedPending)) u).isSome :=
          lookupVersion_isSome.mpr hu
        rw [lookup_setMem] at hs
        by_cases huu : u = s.changedPending
        · simp only [allUnitNamesWithPending, List.mem_dedup, List.mem_append]
          left
          rw [if_neg hp, huu]
          exact Or.inl (List.mem_singleton_self _)
        · rw [if_neg huu] at hs
          simp only [allUnitNamesWithPending, List.mem_dedup, List.mem_append]
          exact Or.inl (Or.inr (lookupVersion_isSome.mp hs))
      · exact List.countP_le_length _
    show reachesNoOp remote false s
      (((allUnitNamesWithPending s remote).length + 1) + 1) = true
    rw [reachesNoOp_succ, c1_pending_replay s remote false hp]
    exact hgoal

/-- Claim C5 counterexample: with `ChangedPending = "u"` and the relation
Dying, the caller's transformed call (empty snapshot, `remoteBroken` set)
still emits a member-level `RelationChanged` hook, contradicting the
claim's assertion that only departures and then `RelationBroken` are
emitted. -/
theorem c5_counterexample :
    nextRelationHook { relationId := 3, members := [], changedPending := "u" }
        (effectiveSnapshot .alive { life := .dying, members := [("u", 9)] }).1
        (effectiveSnapshot .alive { life := .dying, members := [("u", 9)] }).2 =
      some { kind := .RelationChanged, relationId := 3, remoteUnit := "u",
             changeVersion := 0 } := by
  decide

/-- Claim C5 (amended): when the unit's remote Life or a relation
snapshot's Life is Dying, the `relations.NextHook` caller replaces that
relation's snapshot with an empty one and sets `remoteBroken` to true
before invoking `nextRelationHook`, so for that relation no
`RelationJoined` hook is ever emitted and — except for a single
pending-replay `RelationChanged` for the `ChangedPending` unit — only
departures and then `RelationBroken` are emitted; and a Relationer marked
dying that is implicit is discarded immediately. (As stated the claim is
false: it asserts no member-level Changed hook is ever emitted, but a set
`ChangedPending` still yields one `RelationChanged` replay.) -/
theorem c5_dying_amended (localState : State) (snap : RelationSnapshot)
    (unitLife : Life) (hdying : unitLife = .dying ∨ snap.life = .dying) :
    (effectiveSnapshot unitLife snap).2 = true ∧
    (effectiveSnapshot unitLife snap).1.members = [] ∧
    (∀ h, nextRelationHook localState (effectiveSnapshot unitLife snap).1 true =
        some h →
      h.kind ≠ .RelationJoined ∧
      (h.kind = .RelationChanged →
        h.remoteUnit = localState.changedPending ∧
          localState.changedPending ≠ "") ∧
      (localState.changedPending = "" →
        h.kind = .RelationDeparted ∨ h.kind = .RelationBroken)) ∧
    (∀ (rs : RelSet) (id : Int) (r : Relationer), lookupRel rs id = some r →
      r.isImplicit = true → setDying rs id none = .ok (removeRel rs id)) := by
  have hsnap : effectiveSnapshot unitLife snap = (RelationSnapshot.zero, true) := by
    unfold effectiveSnapshot
    rw [if_pos hdying]
  refine ⟨by rw [hsnap], by rw [hsnap]; rfl, ?_, ?_⟩
  · intro h hnext
    rw [hsnap] at hnext
    by_cases hp : localState.changedPending = ""
    · unfold nextRelationHook at hnext
      rw [if_neg (by simp [hp])] at hnext
      cases hdep : scanUnits
          (departOutcome localState.members RelationSnapshot.zero.members)
          (sortedUnitNames localState.members RelationSnapshot.zero.members) with
      | some uv =>
        obtain ⟨u, v⟩ := uv
        simp only [hdep, Option.some.injEq] at hnext
        subst hnext
        exact ⟨fun hc => HookKind.noConfusion hc,
          fun hc => HookKind.noConfusion hc, fun _ => Or.inl rfl⟩
      | none =>
        simp only [hdep, if_true, Option.some.injEq] at hnext
        subst hnext
        exact ⟨fun hc => HookKind.noConfusion hc,
          fun hc => HookKind.noConfusion hc, fun _ => Or.inr rfl⟩
    · rw [c1_pending_replay localState RelationSnapshot.zero true hp] at hnext
      simp only [Option.some.injEq] at hnext
      subst hnext
      exact ⟨fun hc => HookKind.noConfusion hc, fun _ => ⟨rfl, hp⟩,
        fun hpe => absurd hpe hp⟩
  · intro rs id r hlook himp
    unfold setDying
    rw [hlook]
    simp [himp]

/-- Concrete instance of C5 (amended): a Dying unit life forces the
broken flag and the empty snapshot, and an implicit relationer marked
dying is removed from the set. -/
theorem c5_dying_amended_witness :
    (Life.dying = Life.dying ∨
      ({ life := .alive, members := [("b", 1)] } : RelationSnapshot).life = .dying) ∧
    (effectiveSnapshot .dying { life := .alive, members := [("b", 1)] }).2 = true ∧
    setDying [(5, { isImplicit := true, dying := false, endpointName := "db" })] 5
        none =
      .ok (removeRel
        [(5, { isImplicit := true, dying := false, endpointName := "db" })] 5) :=
  ⟨Or.inl rfl,
   (c5_dying_amended
     { relationId := 0, members := [("a", 2)], changedPending := "" }
     { life := .alive, members := [("b", 1)] } .dying (Or.inl rfl)).1,
   (c5_dying_amended
     { relationId := 0, members := [("a", 2)], changedPending := "" }
     { life := .alive, members := [("b", 1)] } .dying (Or.inl rfl)).2.2.2
     [(5, { isImplicit := true, dying := false, endpointName := "db" })] 5
     { isImplicit := true, dying := false, endpointName := "db" } rfl rfl⟩

theorem update_cons_error (env : UpdateEnv) (rs : RelSet) (id : Int)
    (snap : RelationSnapshot) (rest : List (Int × RelationSnapshot)) (e : GoErr)
    (herr : (updateOne env rs id snap).1 = .error e) :
    update env rs ((id, snap) :: rest) = .error e := by
  unfold update
  rw [herr]

/-- Claim C6 counterexample: a newly-seen Alive relation whose `add` fails
with the permanent "cannot enter scope" error and whose directory removal
succeeds is silently skipped — `update` returns success, not the error the
claim says is propagated. -/
theorem c6_counterexample :
    update
      { relationById := fun _ => none
        readCharmDir := none
        endpointErr := fun _ => none
        implementedBy := fun _ => true
        readStateDir := fun _ => none
        addOutcome := fun _ => .error .cannotEnterScope
        dirRemove := fun _ => none
        setDyingErr := fun _ => none }
      [] [(1, { life := .alive, members := [] })] = .ok [] := by
  rfl

/-- Claim C6 (amended): during `relations.update`, when adding a
newly-seen Alive relation fails, the just-created state directory is
removed in every case; if the error is the permanent "cannot enter scope"
error the relation is skipped without propagating that error (only a
failure of the removal itself is returned); any other add error aborts the
whole update with that error; and in no case is a partial Relationer left
registered (a successful outcome leaves the relation set unchanged). (As
stated the claim is false: the cannot-enter-scope error is swallowed, not
returned.) -/
theorem c6_update_add_failure_amended (env : UpdateEnv) (rs : RelSet) (id : Int)
    (snap : RelationSnapshot) (addErr : GoErr)
    (hnew : lookupRel rs id = none)
    (halive : snap.life = .alive)
    (hrel : env.relationById id = none)
    (hch : env.readCharmDir = none)
    (hep : env.endpointErr id = none)
    (himpl : env.implementedBy id = true)
    (hdir : env.readStateDir id = none)
    (hadd : env.addOutcome id = .error addErr) :
    (updateOne env rs id snap).2 = true ∧
    (addErr.isCannotEnterScope = true → env.dirRemove id = none →
      (updateOne env rs id snap).1 = .ok rs) ∧
    (∀ re, addErr.isCannotEnterScope = true → env.dirRemove id = some re →
      (updateOne env rs id snap).1 = .error re) ∧
    (addErr.isCannotEnterScope = false →
      (updateOne env rs id snap).1 = .error addErr) ∧
    (∀ rs', (updateOne env rs id snap).1 = .ok rs' → rs' = rs) ∧
    (∀ rest e, (updateOne env rs id snap).1 = .error e →
      update env rs ((id, snap) :: rest) = .error e) := by
  have hred : updateOne env rs id snap =
      (if addErr.isCannotEnterScope = false then .error addErr
       else
         match env.dirRemove id with
         | some re => .error re
         | none => .ok rs,
       true) := by
    unfold updateOne
    rw [hnew, halive, hrel, hch, hep, himpl, hdir, hadd]
    rfl
  have hred1 : (updateOne env rs id snap).1 =
      (if addErr.isCannotEnterScope = false then .error addErr
       else
         match env.dirRemove id with
         | some re => .error re
         | none => .ok rs) := by rw [hred]
  have hred2 : (updateOne env rs id snap).2 = true := by rw [hred]
  refine ⟨hred2, ?_, ?_, ?_, ?_, ?_⟩
  · intro hces hrm
    rw [hred1, if_neg (by rw [hces]; exact fun hcontra => Bool.noConfusion hcontra),
      hrm]
  · intro re hces hrm
    rw [hred1, if_neg (by rw [hces]; exact fun hcontra => Bool.noConfusion hcontra),
      hrm]
  · intro hces
    rw [hred1, if_pos hces]
  · intro rs' hok
    rw [hred1] at hok
    by_cases hces : addErr.isCannotEnterScope = false
    · rw [if_pos hces] at hok
      exact Except.noConfusion hok
    · rw [if_neg hces] at hok
      cases hrm : env.dirRemove id with
      | some re =>
        rw [hrm] at hok
        exact Except.noConfusion hok
      | none =>
        rw [hrm] at hok
        exact (Except.ok.inj hok).symm
  · intro rest e herr
    exact update_cons_error env rs id snap rest e herr

/-- Concrete instance of C6 (amended): at the counterexample input the
removal is invoked and the cannot-enter-scope failure leaves the update
successful with the relation set unchanged. -/
theorem c6_update_add_failure_amended_witness :
    (updateOne
      { relationById := fun _ => none
        readCharmDir := none
        endpointErr := fun _ => none
        implementedBy := fun _ => true
        readStateDir := fun _ => none
        addOutcome := fun _ => .error .cannotEnterScope
        dirRemove := fun _ => none
        setDyingErr := fun _ => none }
      [] 1 { life := .alive, members := [] }).2 = true ∧
    (updateOne
      { relationById := fun _ => none
        readCharmDir := none
        endpointErr := fun _ => none
        implementedBy := fun _ => true
        readStateDir := fun _ => none
        addOutcome := fun _ => .error .cannotEnterScope
        dirRemove := fun _ => none
        setDyingErr := fun _ => none }
      [] 1 { life := .alive, members := [] }).1 = .ok [] :=
  ⟨(c6_update_add_failure_amended
      { relationById := fun _ => none
        readCharmDir := none
        endpointErr := fun _ => none
        implementedBy := fun _ => true
        readStateDir := fun _ => none
        addOutcome := fun _ => .error .cannotEnterScope
        dirRemove := fun _ => none
        setDyingErr := fun _ => none }
      [] 1 { life := .alive, members := [] } .cannotEnterScope
      rfl rfl rfl rfl rfl rfl rfl rfl).1,
   (c6_update_add_failure_amended
      { relationById := fun _ => none
        readCharmDir := none
        endpointErr := fun _ => none
        implementedBy := fun _ => true
        readStateDir := fun _ => none
        addOutcome := fun _ => .error .cannotEnterScope
        dirRemove := fun _ => none
        setDyingErr := fun _ => none }
      [] 1 { life := .alive, members := [] } .cannotEnterScope
      rfl rfl rfl rfl rfl rfl rfl rfl).2.1 rfl rfl⟩

theorem addLoop_skip_transients (id : Int) (relationer : Relationer) (rs : RelSet) :
    ∀ (pre : List AddEvent),
      (∀ e ∈ pre, e = AddEvent.trigger (some .cannotEnterScopeYet)) →
      ∀ (evs : List AddEvent) (n : Nat),
        addLoop id relationer rs (pre ++ evs) n =
          addLoop id relationer rs evs (n + pre.length)
  | [], _, evs, n => rfl
  | e :: pre, hpre, evs, n => by
    obtain rfl := hpre e (List.mem_cons_self _ _)
    show addLoop id relationer rs (pre ++ evs) (n + 1) =
      addLoop id relationer rs evs (n + (pre.length + 1))
    rw [addLoop_skip_transients id relationer rs pre
      (fun x hm => hpre x (List.mem_cons_of_mem _ hm)) evs (n + 1)]
    congr 1
    omega

/-- Claim C7: if the abort signal fires while the scope-join loop of
`relations.add` is waiting — after any number of transient-rejection
rounds, in particular zero, i.e. before any watch trigger — the loop
returns the distinguished `resolver.ErrLoopAborted` outcome (not a generic
error), makes no scope-entry attempt after (or, with an empty prefix,
before) the abort, and does not register the Relationer. -/
theorem c7_abort_returns_aborted (id : Int) (relationer : Relationer)
    (rs : RelSet) (pre evs : List AddEvent)
    (hpre : ∀ e ∈ pre, e = AddEvent.trigger (some .cannotEnterScopeYet)) :
    addLoop id relationer rs (pre ++ .abort :: evs) 0 =
      some (rs, some .loopAborted, pre.length) := by
  rw [addLoop_skip_transients id relationer rs pre hpre (AddEvent.abort :: evs) 0]
  show some (rs, some GoErr.loopAborted, 0 + pre.length) =
    some (rs, some GoErr.loopAborted, pre.length)
  rw [Nat.zero_add]

/-- Concrete instance of C7: the abort fires before any watch trigger;
`add` returns the aborted outcome with zero `Join()` attempts and an
unchanged (empty) relationer set. -/
theorem c7_abort_returns_aborted_witness :
    (∀ e ∈ ([] : List AddEvent), e = AddEvent.trigger (some .cannotEnterScopeYet)) ∧
    addLoop 2 { isImplicit := false, dying := false, endpointName := "db" } []
        ([] ++ .abort :: [.trigger none]) 0 =
      some ([], some .loopAborted, (0 : Nat)) :=
  ⟨fun e he => absurd he (List.not_mem_nil e),
   c7_abort_returns_aborted 2
     { isImplicit := false, dying := false, endpointName := "db" } [] []
     [.trigger none] (fun e he => absurd he (List.not_mem_nil e))⟩

/-- Claim C8: in the scope-join loop of `relations.add`, each transient
"cannot enter scope yet" rejection waits for the next watch signal and
retries rather than fail; after `k` transient rejections a success
registers the Relationer in the relation set and returns successfully
with exactly `k + 1` attempts, consuming no further events; after `k`
transient rejections any other enter-scope error is returned as fatal,
without registering, again with `k + 1` attempts. -/
theorem c8_transient_retry (id : Int) (relationer : Relationer) (rs : RelSet)
    (k : Nat) (evs : List AddEvent) (e : GoErr)
    (hfatal : e.isCannotEnterScopeYet = false) :
    addLoop id relationer rs
        (List.replicate k (AddEvent.trigger (some .cannotEnterScopeYet)) ++
          .trigger none :: evs) 0 =
      some (setRel rs id relationer, none, k + 1) ∧
    addLoop id relationer rs
        (List.replicate k (AddEvent.trigger (some .cannotEnterScopeYet)) ++
          .trigger (some e) :: evs) 0 =
      some (rs, some e, k + 1) := by
  have hrep : ∀ x ∈ List.replicate k (AddEvent.trigger (some GoErr.cannotEnterScopeYet)),
      x = AddEvent.trigger (some .cannotEnterScopeYet) :=
    fun x hx => List.eq_of_mem_replicate hx
  constructor
  · rw [addLoop_skip_transients id relationer rs _ hrep
        (AddEvent.trigger none :: evs) 0, List.length_replicate]
    show some (setRel rs id relationer, none, 0 + k + 1) =
      some (setRel rs id relationer, none, k + 1)
    rw [Nat.zero_add]
  · rw [addLoop_skip_transients id relationer rs _ hrep
        (AddEvent.trigger (some e) :: evs) 0, List.length_replicate]
    show (if e.isCannotEnterScopeYet then addLoop id relationer rs evs (0 + k + 1)
          else some (rs, some e, 0 + k + 1)) = some (rs, some e, k + 1)
    rw [hfatal]
    simp only [Bool.false_eq_true, if_false, Nat.zero_add]

/-- Concrete instance of C8: two transient rejections followed by a
success complete the join with three attempts and register the
relationer; the hypothesis is discharged for a generic fatal error. -/
theorem c8_transient_retry_witness :
    (GoErr.generic "boom").isCannotEnterScopeYet = false ∧
    addLoop 1 { isImplicit := false, dying := false, endpointName := "db" } []
        (List.replicate 2 (AddEvent.trigger (some .cannotEnterScopeYet)) ++
          .trigger none :: []) 0 =
      some (setRel [] 1 { isImplicit := false, dying := false, endpointName := "db" },
        none, 3) :=
  ⟨rfl,
   (c8_transient_retry 1
     { isImplicit := false, dying := false, endpointName := "db" } [] 2 []
     (.generic "boom") rfl).1⟩

theorem lookupRel_removeRel (rs : RelSet) (id : Int) :
    lookupRel (removeRel rs id) id = none := by
  have hfind : (removeRel rs id).find? (fun p => p.1 == id) = none := by
    rw [List.find?_eq_none]
    intro x hx
    have hmem := List.of_mem_filter hx
    simp only [Bool.not_eq_true'] at hmem
    simp [hmem]
  rw [lookupRel, hfind]
  rfl

theorem commitHookRS_broken (inner : Relationer → Info → Option GoErr)
    (rs : RelSet) (info : Info) (r : Relationer)
    (hreg : lookupRel rs info.relationId = some r)
    (hkind : info.kind = .RelationBroken) :
    commitHookRS inner rs info = (removeRel rs info.relationId, inner r info) := by
  have hisrel : info.kind.isRelation = true := by rw [hkind]; rfl
  unfold commitHookRS
  rw [hisrel, hreg, hkind]
  rfl

/-- Claim C9: for every registered relation id, `CommitHook` with a
`RelationBroken` hook for that id (the per-Relationer commit succeeding)
removes the Relationer from the relation set, so every subsequent `Name`
or `PrepareHook` call for that id fails with the unknown-relation
(not-found) error. -/
theorem c9_broken_removes (inner : Relationer → Info → Option GoErr)
    (prep : Relationer → Info → Except GoErr String)
    (rs : RelSet) (info : Info) (r : Relationer)
    (hreg : lookupRel rs info.relationId = some r)
    (hkind : info.kind = .RelationBroken)
    (hok : inner r info = none) :
    (commitHookRS inner rs info).2 = none ∧
    lookupRel (commitHookRS inner rs info).1 info.relationId = none ∧
    nameOf (commitHookRS inner rs info).1 info.relationId =
      .error (.unknownRelation info.relationId) ∧
    (∀ info', info'.relationId = info.relationId →
      info'.kind.isRelation = true →
      prepareHookRS prep (commitHookRS inner rs info).1 info' =
        .error (.unknownRelation info.relationId)) := by
  have hred := commitHookRS_broken inner rs info r hreg hkind
  have h1 : (commitHookRS inner rs info).1 = removeRel rs info.relationId := by
    rw [hred]
  refine ⟨by rw [hred]; exact hok, ?_, ?_, ?_⟩
  · rw [h1]
    exact lookupRel_removeRel rs info.relationId
  · rw [h1]
    unfold nameOf
    rw [lookupRel_removeRel]
  · intro info' hid hrel'
    rw [h1]
    unfold prepareHookRS
    rw [hrel', hid, lookupRel_removeRel]
    rfl

/-- Concrete instance of C9: after committing `RelationBroken` for the
registered id 3, `Name` and `PrepareHook` (for a relation-kind hook on
id 3) both fail with the unknown-relation error. -/
theorem c9_broken_removes_witness :
    (lookupRel [(3, { isImplicit := false, dying := false, endpointName := "db" })] 3 =
      some { isImplicit := false, dying := false, endpointName := "db" }) ∧
    nameOf (commitHookRS (fun _ _ => none)
        [(3, { isImplicit := false, dying := false, endpointName := "db" })]
        { kind := .RelationBroken, relationId := 3, remoteUnit := "",
          changeVersion := 0 }).1 3 =
      .error (.unknownRelation 3) ∧
    prepareHookRS (fun _ _ => .ok "x")
        (commitHookRS (fun _ _ => none)
          [(3, { isImplicit := false, dying := false, endpointName := "db" })]
          { kind := .RelationBroken, relationId := 3, remoteUnit := "",
            changeVersion := 0 }).1
        { kind := .RelationChanged, relationId := 3, remoteUnit := "u",
          changeVersion := 1 } =
      .error (.unknownRelation 3) :=
  ⟨rfl,
   (c9_broken_removes (fun _ _ => none) (fun _ _ => .ok "x")
     [(3, { isImplicit := false, dying := false, endpointName := "db" })]
     { kind := .RelationBroken, relationId := 3, remoteUnit := "", changeVersion := 0 }
     { isImplicit := false, dying := false, endpointName := "db" }
     rfl rfl rfl).2.2.1,
   (c9_broken_removes (fun _ _ => none) (fun _ _ => .ok "x")
     [(3, { isImplicit := false, dying := false, endpointName := "db" })]
     { kind := .RelationBroken, relationId := 3, remoteUnit := "", changeVersion := 0 }
     { isImplicit := false, dying := false, endpointName := "db" }
     rfl rfl rfl).2.2.2
     { kind := .RelationChanged, relationId := 3, remoteUnit := "u", changeVersion := 1 }
     rfl rfl⟩

/-- Claim C10: in `relations.CommitHook`, for every `RelationBroken` hook
whose relation id is registered, the Relationer is deleted from the set
before the per-Relationer commit runs — the commit result is computed from
the relationer looked up before deletion — and the deletion stands even
when that commit returns an error (removal is unconditional on commit
success; `CommitHook` is not atomic on error for `RelationBroken`). -/
theorem c10_removal_unconditional (inner : Relationer → Info → Option GoErr)
    (rs : RelSet) (info : Info) (r : Relationer)
    (hreg : lookupRel rs info.relationId = some r)
    (hkind : info.kind = .RelationBroken) :
    (commitHookRS inner rs info).1 = removeRel rs info.relationId ∧
    lookupRel (commitHookRS inner rs info).1 info.relationId = none ∧
    (commitHookRS inner rs info).2 = inner r info := by
  have hred := commitHookRS_broken inner rs info r hreg hkind
  refine ⟨by rw [hred], ?_, by rw [hred]⟩
  rw [show (commitHookRS inner rs info).1 = removeRel rs info.relationId by rw [hred]]
  exact lookupRel_removeRel rs info.relationId

/-- Concrete instance of C10: the per-Relationer commit fails, yet the
Relationer for id 7 is no longer registered after `CommitHook`. -/
theorem c10_removal_unconditional_witness :
    (lookupRel [(7, { isImplicit := false, dying := false, endpointName := "srv" })] 7 =
      some { isImplicit := false, dying := false, endpointName := "srv" }) ∧
    lookupRel (commitHookRS (fun _ _ => some (.generic "commit failed"))
        [(7, { isImplicit := false, dying := false, endpointName := "srv" })]
        { kind := .RelationBroken, relationId := 7, remoteUnit := "",
          changeVersion := 0 }).1 7 = none ∧
    (commitHookRS (fun _ _ => some (.generic "commit failed"))
        [(7, { isImplicit := false, dying := false, endpointName := "srv" })]
        { kind := .RelationBroken, relationId := 7, remoteUnit := "",
          changeVersion := 0 }).2 = some (.generic "commit failed") :=
  ⟨rfl,
   (c10_removal_unconditional (fun _ _ => some (.generic "commit failed"))
     [(7, { isImplicit := false, dying := false, endpointName := "srv" })]
     { kind := .RelationBroken, relationId := 7, remoteUnit := "", changeVersion := 0 }
     { isImplicit := false, dying := false, endpointName := "srv" }
     rfl rfl).2.1,
   (c10_removal_unconditional (fun _ _ => some (.generic "commit failed"))
     [(7, { isImplicit := false, dying := false, endpointName := "srv" })]
     { kind := .RelationBroken, relationId := 7, remoteUnit := "", changeVersion := 0 }
     { isImplicit := false, dying := false, endpointName := "srv" }
     rfl rfl).2.2⟩

end JujuRelation
